import Mathlib

-- The Batteries rational-number operations are sealed; unsealing lets the
-- concrete simulation runs below be checked by `decide`.
unseal Rat.add Rat.sub Rat.mul Rat.inv Rat.ofScientific

/-!
Verification of the polling-place simulation in `pa4/simulate.py`.

Shallow embedding conventions:
* Python floats are modelled as exact rationals (`ℚ`).
* The global `random` module is modelled as an explicit family of draw
  streams `rng : ℕ → ℕ → Draw`: `random.seed(seed)` selects the stream
  `rng seed`, and the `i`-th call of `util.gen_voter_parameters` during a
  run consumes the draw `rng seed i`.
* `queue.PriorityQueue` (a binary min-heap of rationals) is modelled as a
  multiset kept as an ascending sorted list: `put` is ordered insertion,
  `get` removes the head (the minimum).  `put(x, block=False)` raising
  `queue.Full` and `get(block=False)` raising `queue.Empty` are modelled
  by `Option`: `none` is the raised exception.
* A function whose Python counterpart can raise an uncaught exception
  returns `Option _`; `none` means the exception propagated.
-/

/-- One voter's worth of raw pseudo-random material, in the order the spec
fixes per voter: the interarrival gap draw, the uniform duration-selector
`u`, and the exponential service-duration draw. -/
structure Draw where
  gap : ℚ
  u : ℚ
  dur : ℚ
deriving DecidableEq

/-- Modelled from the spec: `util.gen_voter_parameters` lives in `util.py`,
which is not part of the sources here.  Per the spec it returns the pair
(interarrival gap, service duration) where the duration is the fixed
`straight_ticket_duration` with probability `percent_straight_ticket`
(the uniform selector draw falling below that probability) and otherwise
the exponential draw with the configured base rate.  The exponential and
uniform draws themselves are abstracted into the `Draw` record. -/
def gen_voter_parameters (percent_straight_ticket straight_ticket_duration : ℚ)
    (d : Draw) : ℚ × ℚ :=
  (d.gap, if d.u < percent_straight_ticket then straight_ticket_duration else d.dur)

/-- The `Voter` class (simulate.py lines 17-30).  `start_time` and
`departure_time` are `None` at construction and assigned when the voter is
admitted to a booth. -/
structure Voter where
  arrival_time : ℚ
  voting_duration : ℚ
  start_time : Option ℚ
  departure_time : Option ℚ
deriving DecidableEq

/-- The `VotingBooths` class (lines 124-192): a `queue.PriorityQueue` of
scheduled departure times with `maxsize = num_booths`, modelled as an
ascending sorted list. -/
structure VotingBooths where
  num_booths : ℕ
  pq : List ℚ
deriving DecidableEq

/-- `PriorityQueue.full()`: true iff `0 < maxsize <= qsize()`. -/
def VotingBooths.is_full (b : VotingBooths) : Bool :=
  decide (0 < b.num_booths ∧ b.num_booths ≤ b.pq.length)

/-- `VotingBooths.is_empty` (lines 171-180): `PriorityQueue.empty()`. -/
def VotingBooths.is_empty (b : VotingBooths) : Bool :=
  b.pq.isEmpty

/-- `PriorityQueue.put(x, block=False)`: raises `queue.Full` (here `none`)
when the queue is full, otherwise inserts. -/
def VotingBooths.put (b : VotingBooths) (x : ℚ) : Option VotingBooths :=
  if b.is_full then none
  else some ⟨b.num_booths, b.pq.orderedInsert (· ≤ ·) x⟩

/-- `VotingBooths.add_voter` (lines 140-154): first assigns the voter's
`start_time` and `departure_time`, then `put`s the departure time.  The
returned pair is (the voter as mutated, the queue after `put`); the second
component is `none` when `put` raised `queue.Full` — the voter's fields
are already set at that point. -/
def VotingBooths.add_voter (b : VotingBooths) (voter : Voter)
    (start_time voting_duration : ℚ) : Voter × Option VotingBooths :=
  ({ voter with
      start_time := some start_time,
      departure_time := some (start_time + voting_duration) },
    b.put (start_time + voting_duration))

/-- `VotingBooths.remove_voter` (lines 157-168): `get(block=False)` —
removes and returns the smallest scheduled departure time, `none` when the
queue is empty (the raised `queue.Empty`). -/
def VotingBooths.remove_voter (b : VotingBooths) : Option (ℚ × VotingBooths) :=
  match b.pq with
  | [] => none
  | x :: rest => some (x, ⟨b.num_booths, rest⟩)

/-- The `Precinct` class constructor state (lines 32-52). -/
structure Precinct where
  name : String
  hours_open : ℕ
  max_num_voters : ℕ
  num_booths : ℕ
  arrival_rate : ℚ
  voting_duration_rate : ℚ

/-- `Precinct.next_voter` (lines 54-73).  Note the call passes the literal
constant `2` as `straight_ticket_duration`. -/
def Precinct.next_voter (p : Precinct) (time percent_straight_ticket : ℚ)
    (d : Draw) : Voter :=
  ⟨time + (gen_voter_parameters percent_straight_ticket 2 d).1,
    (gen_voter_parameters percent_straight_ticket 2 d).2, none, none⟩

/-- The booth-assignment block of one loop iteration of `Precinct.simulate`
(lines 111-118): if the booths are not full, the voter starts at its
arrival time; otherwise the earliest scheduled departure is evicted and the
voter starts at that departure when it is later than the arrival, else at
the arrival.  `none` is a propagated `queue.Empty` from `remove_voter`. -/
def assign_booth (booths : VotingBooths) (voter : Voter)
    (arrival voting_duration : ℚ) : Option (Voter × Option VotingBooths) :=
  if booths.is_full then
    match booths.remove_voter with
    | none => none
    | some (latest_departure, booths1) =>
      if arrival < latest_departure then
        some (booths1.add_voter voter latest_departure voting_duration)
      else
        some (booths1.add_voter voter arrival voting_duration)
  else
    some (booths.add_voter voter arrival voting_duration)

/-- The event loop of `Precinct.simulate` (lines 96-121), recursing on the
remaining iterations of `for i in range(self.max_num_voters)`.  `i` is the
index of the next `gen_voter_parameters` call in the seeded stream, `t` the
current simulated time, and the returned list collects the voters appended
after this point.  The trivially-true test mirrors line 109's
`elif t == next_arrival:` (always true right after `t = next_arrival`). -/
def simulateFrom (minutes_open percent_straight_ticket : ℚ) (draws : ℕ → Draw) :
    ℕ → ℕ → ℚ → VotingBooths → Option (List Voter)
  | 0, _, _, _ => some []
  | n + 1, i, t, booths =>
    let gd := gen_voter_parameters percent_straight_ticket 2 (draws i)
    let next_arrival := t + gd.1
    if minutes_open ≤ next_arrival then some []
    else if next_arrival = next_arrival then
      match assign_booth booths ⟨next_arrival, gd.2, none, none⟩ next_arrival gd.2 with
      | none => none
      | some (_, none) => none
      | some (voter2, some booths2) =>
        match simulateFrom minutes_open percent_straight_ticket draws n (i + 1)
            next_arrival booths2 with
        | none => none
        | some rest => some (voter2 :: rest)
    else
      simulateFrom minutes_open percent_straight_ticket draws n (i + 1) next_arrival booths

/-- `Precinct.simulate` (lines 76-121).  `random.seed(seed)` at line 91 is
modelled by selecting the stream `rng seed`.  The `straight_ticket_duration`
argument is accepted, as in the source, but the `gen_voter_parameters` call
at lines 100-101 passes the literal constant `2` instead. -/
def Precinct.simulate (p : Precinct)
    (percent_straight_ticket straight_ticket_duration : ℚ)
    (rng : ℕ → ℕ → Draw) (seed : ℕ) : Option (List Voter) :=
  simulateFrom ((p.hours_open : ℚ) * 60) percent_straight_ticket (rng seed)
    p.max_num_voters 0 0 ⟨p.num_booths, []⟩

/-- A precinct dictionary as consumed by `find_avg_wait_time` (lines
213-219): the fields it reads. -/
structure PrecinctConfig where
  name : String
  hours_open : ℕ
  num_voters : ℕ
  num_booths : ℕ
  arrival_rate : ℚ
  voting_duration_rate : ℚ
  straight_ticket_duration : ℚ

/-- The `Precinct` built from the dictionary at lines 213-221. -/
def mkPrecinct (precinct : PrecinctConfig) : Precinct :=
  ⟨precinct.name, precinct.hours_open, precinct.num_voters,
    precinct.num_booths, precinct.arrival_rate, precinct.voting_duration_rate⟩

/-- The accumulation `total_wait += voter.start_time - voter.arrival_time`
of lines 228-230.  Every voter in a simulation output has `start_time`
assigned (proved below); `getD 0` totalises the `Option`. -/
def total_wait (sim : List Voter) : ℚ :=
  sim.foldl (fun acc voter => acc + (voter.start_time.getD 0 - voter.arrival_time)) 0

/-- The trial loop of `find_avg_wait_time` (lines 226-233): one simulation
per trial, average `total_wait / max_num_voters` (note: the divisor is the
voter cap, taken from the `Precinct`), seed incremented by one between
trials.  `none` propagates a failed trial. -/
def trialAvgs (p : Precinct) (percent_straight_ticket straight_duration : ℚ)
    (rng : ℕ → ℕ → Draw) : ℕ → ℕ → Option (List ℚ)
  | 0, _ => some []
  | n + 1, seed =>
    match p.simulate percent_straight_ticket straight_duration rng seed with
    | none => none
    | some sim =>
      match trialAvgs p percent_straight_ticket straight_duration rng n (seed + 1) with
      | none => none
      | some rest => some ((total_wait sim / (p.max_num_voters : ℚ)) :: rest)

/-- `find_avg_wait_time` (lines 195-237): run `ntrials` simulations from
`initial_seed`, sort the per-trial averages ascending, return the entry at
index `ntrials / 2` (`none` models the `IndexError` when `ntrials = 0`). -/
def find_avg_wait_time (precinct : PrecinctConfig) (percent_straight_ticket : ℚ)
    (ntrials : ℕ) (rng : ℕ → ℕ → Draw) (initial_seed : ℕ) : Option ℚ :=
  match trialAvgs (mkPrecinct precinct) percent_straight_ticket
      precinct.straight_ticket_duration rng ntrials initial_seed with
  | none => none
  | some avg_times => ((avg_times.insertionSort (· ≤ ·)).get? (ntrials / 2))

/-- The candidate list `[round(i * 0.1, 1) for i in list(range(11))]` of
lines 263-264. -/
def percent_split_ticket_list : List ℚ :=
  (List.range 11).map (fun i => (i : ℚ) / 10)

/-- The loop of `find_percent_split_ticket` (lines 266-274).  Per candidate
`percent`: compute the aggregated wait at `1 - percent`; `break` with
`(percent, wait)` when it strictly exceeds the target; at the last
candidate, when `percent == 1` and the wait is strictly below the target,
the wait is overwritten with `None` before the return — mid-list that
overwrite is dead, the next iteration reassigns the variable. -/
def splitLoopFrom (precinct : PrecinctConfig) (target_wait_time : ℚ) (ntrials : ℕ)
    (rng : ℕ → ℕ → Draw) (seed : ℕ) : List ℚ → Option (ℚ × Option ℚ)
  | [] => none
  | percent :: rest =>
    match find_avg_wait_time precinct (1 - percent) ntrials rng seed with
    | none => none
    | some avg_wait_time =>
      if target_wait_time < avg_wait_time then some (percent, some avg_wait_time)
      else
        match rest with
        | [] =>
          some (percent,
            if percent = 1 ∧ avg_wait_time < target_wait_time then none
            else some avg_wait_time)
        | _ :: _ => splitLoopFrom precinct target_wait_time ntrials rng seed rest

/-- `find_percent_split_ticket` (lines 240-274). -/
def find_percent_split_ticket (precinct : PrecinctConfig) (target_wait_time : ℚ)
    (ntrials : ℕ) (rng : ℕ → ℕ → Draw) (seed : ℕ) : Option (ℚ × Option ℚ) :=
  splitLoopFrom precinct target_wait_time ntrials rng seed percent_split_ticket_list

/-! Concrete fixtures used by witnesses and counterexamples. -/

/-- A one-voter, one-booth precinct open for one hour. -/
def preC : PrecinctConfig := ⟨"C", 1, 1, 1, 1, 1, 2⟩

/-- A constant draw stream: every voter arrives one minute after the
previous one and votes for one minute. -/
def rngC : ℕ → ℕ → Draw := fun _ _ => ⟨1, 1, 1⟩

/-- The single-voter output of simulating `preC` under `rngC`. -/
def lC : List Voter := [⟨1, 1, some 1, some 2⟩]

/-- A precinct with a cap of three voters and one booth, open one hour. -/
def preB : PrecinctConfig := ⟨"B", 1, 3, 1, 1, 1, 2⟩

/-- A draw stream under which only two of `preB`'s three potential voters
arrive before closing: the first votes for ten minutes, the second must
wait nine minutes for the booth, the third would arrive after closing. -/
def rngB : ℕ → ℕ → Draw := fun _ i =>
  if i = 0 then ⟨1, 1, 10⟩ else if i = 1 then ⟨1, 1, 1⟩ else ⟨100, 1, 1⟩

/-- The two-voter output of simulating `preB` under `rngB`. -/
def lB : List Voter := [⟨1, 10, some 1, some 11⟩, ⟨2, 1, some 11, some 12⟩]

/-- A full single-booth pool: one scheduled departure at time 5. -/
def bFull : VotingBooths := ⟨1, [5]⟩

/-- A freshly arrived voter, start and departure not yet assigned. -/
def vC : Voter := ⟨1, 2, none, none⟩

/-! Helper lemmas about the booth pool and one loop iteration. -/

lemma is_full_iff (b : VotingBooths) :
    b.is_full = true ↔ 0 < b.num_booths ∧ b.num_booths ≤ b.pq.length := by
  simp [VotingBooths.is_full]

lemma put_of_not_full {b : VotingBooths} (x : ℚ)
    (h : ¬(0 < b.num_booths ∧ b.num_booths ≤ b.pq.length)) :
    b.put x = some ⟨b.num_booths, b.pq.orderedInsert (· ≤ ·) x⟩ := by
  simp only [VotingBooths.put, VotingBooths.is_full]
  rw [if_neg (by simpa using h)]

lemma assign_booth_fields {b : VotingBooths} {v : Voter} {a d : ℚ}
    {v2 : Voter} {ob : Option VotingBooths}
    (h : assign_booth b v a d = some (v2, ob)) :
    ∃ s, a ≤ s ∧
      v2 = { v with start_time := some s, departure_time := some (s + d) } := by
  unfold assign_booth at h
  split at h
  · split at h
    · exact absurd h (by simp)
    · split at h
      · rename_i latest b1 heq hlt
        refine ⟨latest, le_of_lt hlt, ?_⟩
        have := (Option.some.inj h)
        simpa [VotingBooths.add_voter] using congrArg Prod.fst this.symm
      · rename_i latest b1 heq hge
        refine ⟨a, le_refl a, ?_⟩
        have := (Option.some.inj h)
        simpa [VotingBooths.add_voter] using congrArg Prod.fst this.symm
  · refine ⟨a, le_refl a, ?_⟩
    have := (Option.some.inj h)
    simpa [VotingBooths.add_voter] using congrArg Prod.fst this.symm

lemma assign_booth_not_full {b : VotingBooths} (v : Voter) (a d : ℚ)
    (h : b.pq.length < b.num_booths ∨ b.num_booths = 0) :
    assign_booth b v a d =
      some ({ v with start_time := some a, departure_time := some (a + d) },
        some ⟨b.num_booths, b.pq.orderedInsert (· ≤ ·) (a + d)⟩) := by
  have hnf : ¬(0 < b.num_booths ∧ b.num_booths ≤ b.pq.length) := by omega
  unfold assign_booth
  rw [if_neg (by simpa [is_full_iff] using hnf)]
  simp [VotingBooths.add_voter, put_of_not_full _ hnf]

lemma assign_booth_inv (b : VotingBooths) (v : Voter) (a d : ℚ)
    (hinv : b.num_booths = 0 ∨ b.pq.length ≤ b.num_booths) :
    ∃ v2 b2, assign_booth b v a d = some (v2, some b2) ∧
      b2.num_booths = b.num_booths ∧
      (b2.num_booths = 0 ∨ b2.pq.length ≤ b2.num_booths) := by
  by_cases hfull : 0 < b.num_booths ∧ b.num_booths ≤ b.pq.length
  · -- the pool is full; the earliest departure is evicted first
    obtain ⟨x, rest, hx⟩ : ∃ x rest, b.pq = x :: rest := by
      cases hpq : b.pq with
      | nil => exfalso; rw [hpq] at hfull; simp at hfull; omega
      | cons x rest => exact ⟨x, rest, rfl⟩
    have hrem : b.remove_voter = some (x, ⟨b.num_booths, rest⟩) := by
      simp [VotingBooths.remove_voter, hx]
    have hlen : rest.length + 1 = b.pq.length := by rw [hx]; simp
    have hnf1 : ¬(0 < b.num_booths ∧ b.num_booths ≤ rest.length) := by omega
    have hput : ∀ y : ℚ, (VotingBooths.put ⟨b.num_booths, rest⟩ y) =
        some ⟨b.num_booths, rest.orderedInsert (· ≤ ·) y⟩ :=
      fun y => put_of_not_full y (by simpa using hnf1)
    unfold assign_booth
    rw [if_pos (by simpa [is_full_iff] using hfull), hrem]
    dsimp only
    by_cases hlt : a < x
    · rw [if_pos hlt]
      refine ⟨{ v with start_time := some x, departure_time := some (x + d) },
        ⟨b.num_booths, rest.orderedInsert (· ≤ ·) (x + d)⟩, ?_, rfl, ?_⟩
      · simp [VotingBooths.add_voter, hput]
      · right; simp [List.orderedInsert_length]; omega
    · rw [if_neg hlt]
      refine ⟨{ v with start_time := some a, departure_time := some (a + d) },
        ⟨b.num_booths, rest.orderedInsert (· ≤ ·) (a + d)⟩, ?_, rfl, ?_⟩
      · simp [VotingBooths.add_voter, hput]
      · right; simp [List.orderedInsert_length]; omega
  · -- not full: insert directly
    rw [assign_booth_not_full v a d (by omega)]
    refine ⟨_, _, rfl, rfl, ?_⟩
    rcases hinv with h0 | hle
    · left; simpa using h0
    · by_cases h0 : b.num_booths = 0
      · left; simpa using h0
      · right; simp [List.orderedInsert_length]; omega

lemma simulateFrom_sound (minutes_open pct : ℚ) (draws : ℕ → Draw)
    (hgap : ∀ i, 0 < (draws i).gap) :
    ∀ n i t b l, simulateFrom minutes_open pct draws n i t b = some l →
      (∀ v ∈ l, t < v.arrival_time ∧ ∃ s, v.start_time = some s ∧
        v.arrival_time ≤ s ∧ v.departure_time = some (s + v.voting_duration)) ∧
      l.Pairwise (fun u w => u.arrival_time < w.arrival_time) := by
  intro n
  induction n with
  | zero =>
    intro i t b l h
    simp only [simulateFrom] at h
    cases h
    exact ⟨by simp, List.Pairwise.nil⟩
  | succ n ih =>
    intro i t b l h
    simp only [simulateFrom] at h
    by_cases hmo : minutes_open ≤ t + (gen_voter_parameters pct 2 (draws i)).1
    · rw [if_pos hmo] at h
      cases h
      exact ⟨by simp, List.Pairwise.nil⟩
    · rw [if_neg hmo] at h
      simp only [eq_self_iff_true, if_true] at h
      cases hassign : assign_booth b
          ⟨t + (gen_voter_parameters pct 2 (draws i)).1,
            (gen_voter_parameters pct 2 (draws i)).2, none, none⟩
          (t + (gen_voter_parameters pct 2 (draws i)).1)
          (gen_voter_parameters pct 2 (draws i)).2 with
      | none => rw [hassign] at h; cases h
      | some pair =>
        obtain ⟨v2, ob⟩ := pair
        rw [hassign] at h
        cases ob with
        | none => dsimp only at h; cases h
        | some b2 =>
          dsimp only at h
          cases hrec : simulateFrom minutes_open pct draws n (i + 1)
              (t + (gen_voter_parameters pct 2 (draws i)).1) b2 with
          | none => rw [hrec] at h; cases h
          | some rest =>
            rw [hrec] at h
            cases h
            obtain ⟨s, hs_le, hv2⟩ := assign_booth_fields hassign
            have ht' : t < t + (gen_voter_parameters pct 2 (draws i)).1 :=
              lt_add_of_pos_right t (hgap i)
            have ihr := ih (i + 1) (t + (gen_voter_parameters pct 2 (draws i)).1) b2 rest hrec
            constructor
            · intro v hv
              rcases List.mem_cons.mp hv with rfl | hv'
              · subst hv2
                exact ⟨ht', s, rfl, hs_le, rfl⟩
              · obtain ⟨harr, hfields⟩ := ihr.1 v hv'
                exact ⟨lt_trans ht' harr, hfields⟩
            · refine List.pairwise_cons.mpr ⟨?_, ihr.2⟩
              intro v hv
              subst hv2
              exact (ihr.1 v hv).1

lemma simulateFrom_no_wait (minutes_open pct : ℚ) (draws : ℕ → Draw) :
    ∀ n i t b l, b.pq.length + n ≤ b.num_booths →
      simulateFrom minutes_open pct draws n i t b = some l →
      ∀ v ∈ l, v.start_time = some v.arrival_time := by
  intro n
  induction n with
  | zero =>
    intro i t b l _ h
    simp only [simulateFrom] at h
    cases h
    simp
  | succ n ih =>
    intro i t b l hcap h
    simp only [simulateFrom] at h
    by_cases hmo : minutes_open ≤ t + (gen_voter_parameters pct 2 (draws i)).1
    · rw [if_pos hmo] at h; cases h; simp
    · rw [if_neg hmo] at h
      simp only [eq_self_iff_true, if_true] at h
      have hnf : b.pq.length < b.num_booths ∨ b.num_booths = 0 := by omega
      rw [assign_booth_not_full _ _ _ hnf] at h
      dsimp only at h
      cases hrec : simulateFrom minutes_open pct draws n (i + 1)
          (t + (gen_voter_parameters pct 2 (draws i)).1)
          ⟨b.num_booths, b.pq.orderedInsert (· ≤ ·)
            (t + (gen_voter_parameters pct 2 (draws i)).1 +
              (gen_voter_parameters pct 2 (draws i)).2)⟩ with
      | none => rw [hrec] at h; cases h
      | some rest =>
        rw [hrec] at h
        cases h
        intro v hv
        rcases List.mem_cons.mp hv with rfl | hv'
        · rfl
        · exact ih (i + 1) _ _ rest
            (by simp [List.orderedInsert_length]; omega) hrec v hv'

lemma simulateFrom_total (minutes_open pct : ℚ) (draws : ℕ → Draw) :
    ∀ n i t b, (b.num_booths = 0 ∨ b.pq.length ≤ b.num_booths) →
      ∃ l, simulateFrom minutes_open pct draws n i t b = some l := by
  intro n
  induction n with
  | zero => intro i t b _; exact ⟨[], rfl⟩
  | succ n ih =>
    intro i t b hinv
    by_cases hmo : minutes_open ≤ t + (gen_voter_parameters pct 2 (draws i)).1
    · exact ⟨[], by simp only [simulateFrom]; rw [if_pos hmo]⟩
    · obtain ⟨v2, b2, hassign, hnb, hinv2⟩ := assign_booth_inv b
        ⟨t + (gen_voter_parameters pct 2 (draws i)).1,
          (gen_voter_parameters pct 2 (draws i)).2, none, none⟩
        (t + (gen_voter_parameters pct 2 (draws i)).1)
        (gen_voter_parameters pct 2 (draws i)).2 hinv
      obtain ⟨rest, hrest⟩ := ih (i + 1) (t + (gen_voter_parameters pct 2 (draws i)).1) b2 hinv2
      refine ⟨v2 :: rest, ?_⟩
      simp only [simulateFrom]
      rw [if_neg hmo]
      simp only [eq_self_iff_true, if_true]
      rw [hassign]
      dsimp only
      rw [hrest]

lemma simulate_total (p : Precinct) (pct sd : ℚ) (rng : ℕ → ℕ → Draw) (seed : ℕ) :
    ∃ l, p.simulate pct sd rng seed = some l := by
  unfold Precinct.simulate
  exact simulateFrom_total _ _ _ _ _ _ _ (Or.inr (Nat.zero_le _))

/-- Written from the spec's words for the aggregator claim (C4): the list
of per-trial averages the aggregator is said to collect, one per seed
`s0, s0 + 1, …, s0 + n - 1`, in seed order.  To be compared against
`find_avg_wait_time`. -/
def specSeedAverages (precinct : PrecinctConfig) (pct : ℚ) (rng : ℕ → ℕ → Draw)
    (n s0 : ℕ) : List ℚ :=
  (List.range n).map (fun k =>
    total_wait (((mkPrecinct precinct).simulate pct precinct.straight_ticket_duration
      rng (s0 + k)).getD []) / ((mkPrecinct precinct).max_num_voters : ℚ))

lemma trialAvgs_eq (p : Precinct) (pct sd : ℚ) (rng : ℕ → ℕ → Draw) :
    ∀ n s0, trialAvgs p pct sd rng n s0 =
      some ((List.range n).map (fun k =>
        total_wait ((p.simulate pct sd rng (s0 + k)).getD []) /
          (p.max_num_voters : ℚ))) := by
  intro n
  induction n with
  | zero => intro s0; simp [trialAvgs]
  | succ n ih =>
    intro s0
    obtain ⟨sim, hsim⟩ := simulate_total p pct sd rng s0
    rw [trialAvgs, hsim]
    dsimp only
    rw [ih (s0 + 1)]
    dsimp only
    rw [List.range_succ_eq_map, List.map_cons, List.map_map]
    have harg : ∀ k : ℕ, s0 + 1 + k = s0 + Nat.succ k := by omega
    simp only [Function.comp, harg, Nat.add_zero, hsim, Option.getD_some]
    rfl

lemma find_avg_eq (precinct : PrecinctConfig) (pct : ℚ) (n : ℕ)
    (rng : ℕ → ℕ → Draw) (s0 : ℕ) :
    find_avg_wait_time precinct pct n rng s0 =
      ((specSeedAverages precinct pct rng n s0).insertionSort (· ≤ ·)).get? (n / 2) := by
  unfold find_avg_wait_time specSeedAverages
  rw [trialAvgs_eq]

lemma splitLoopFrom_first_crossing (precinct : PrecinctConfig) (target : ℚ)
    (ntrials : ℕ) (rng : ℕ → ℕ → Draw) (seed : ℕ) (W : ℚ → ℚ) :
    ∀ L : List ℚ, L.Pairwise (· < ·) →
      (∀ q ∈ L, find_avg_wait_time precinct (1 - q) ntrials rng seed = some (W q)) →
      (∃ q ∈ L, target < W q) →
      ∃ p0 ∈ L, target < W p0 ∧ (∀ q ∈ L, q < p0 → ¬ target < W q) ∧
        splitLoopFrom precinct target ntrials rng seed L = some (p0, some (W p0)) := by
  intro L
  induction L with
  | nil => intro _ _ he; simp at he
  | cons p rest ih =>
    intro hpair hW he
    have hWp : find_avg_wait_time precinct (1 - p) ntrials rng seed = some (W p) :=
      hW p (List.mem_cons_self p rest)
    by_cases hcross : target < W p
    · refine ⟨p, List.mem_cons_self p rest, hcross, ?_, ?_⟩
      · intro q hq hqlt
        rcases List.mem_cons.mp hq with rfl | hq'
        · exact absurd hqlt (lt_irrefl q)
        · exact absurd hqlt (not_lt.mpr (le_of_lt ((List.pairwise_cons.mp hpair).1 q hq')))
      · rw [splitLoopFrom, hWp]
        dsimp only
        rw [if_pos hcross]
    · obtain ⟨q0, hq0, hq0c⟩ := he
      rcases List.mem_cons.mp hq0 with rfl | hq0'
      · exact absurd hq0c hcross
      have hrestne : rest ≠ [] := by
        intro hnil; rw [hnil] at hq0'; simp at hq0'
      obtain ⟨p0, hp0, hp0c, hmin, hloop⟩ := ih (List.pairwise_cons.mp hpair).2
        (fun q hq => hW q (List.mem_cons_of_mem p hq)) ⟨q0, hq0', hq0c⟩
      refine ⟨p0, List.mem_cons_of_mem p hp0, hp0c, ?_, ?_⟩
      · intro q hq hqlt
        rcases List.mem_cons.mp hq with rfl | hq'
        · exact hcross
        · exact hmin q hq' hqlt
      · rw [splitLoopFrom, hWp]
        dsimp only
        rw [if_neg hcross]
        cases rest with
        | nil => exact absurd rfl hrestne
        | cons r rs => exact hloop

lemma splitLoopFrom_all_below (precinct : PrecinctConfig) (target : ℚ)
    (ntrials : ℕ) (rng : ℕ → ℕ → Draw) (seed : ℕ) (W : ℚ → ℚ) :
    ∀ L p0, L.getLast? = some p0 →
      (∀ q ∈ L, find_avg_wait_time precinct (1 - q) ntrials rng seed = some (W q)) →
      (∀ q ∈ L, ¬ target < W q) →
      splitLoopFrom precinct target ntrials rng seed L =
        some (p0, if p0 = 1 ∧ W p0 < target then none else some (W p0)) := by
  intro L
  induction L with
  | nil => intro p0 h _ _; simp at h
  | cons p rest ih =>
    intro p0 hlast hW hno
    have hWp := hW p (List.mem_cons_self p rest)
    rw [splitLoopFrom, hWp]
    dsimp only
    rw [if_neg (hno p (List.mem_cons_self p rest))]
    cases rest with
    | nil =>
      simp only [List.getLast?_singleton, Option.some.injEq] at hlast
      subst hlast
      rfl
    | cons r rs =>
      have hlast2 : (r :: rs).getLast? = some p0 := by
        rwa [List.getLast?_cons_cons] at hlast
      exact ih p0 hlast2 (fun q hq => hW q (List.mem_cons_of_mem p hq))
        (fun q hq => hno q (List.mem_cons_of_mem p hq))

/-- A second draw-stream family that agrees with `rngC` on seed 0 but not
elsewhere; used to witness determinism. -/
def rngC2 : ℕ → ℕ → Draw := fun s _ => if s = 0 then ⟨1, 1, 1⟩ else ⟨3, 3, 3⟩

/-- C5: for every configuration and seed, assuming every generated
interarrival gap is strictly positive, the voter sequence returned by
`Precinct.simulate` has strictly increasing arrival times, and every voter
in it satisfies start_time ≥ arrival_time and
departure_time = start_time + voting_duration. -/
theorem C5_simulate_invariants (p : Precinct) (pct sd : ℚ) (rng : ℕ → ℕ → Draw)
    (seed : ℕ) (l : List Voter)
    (hgap : ∀ i, 0 < (rng seed i).gap)
    (hsim : p.simulate pct sd rng seed = some l) :
    l.Pairwise (fun u w => u.arrival_time < w.arrival_time) ∧
    ∀ v ∈ l, ∃ s, v.start_time = some s ∧ v.arrival_time ≤ s ∧
      v.departure_time = some (s + v.voting_duration) := by
  unfold Precinct.simulate at hsim
  obtain ⟨hmem, hpair⟩ := simulateFrom_sound _ _ _ hgap _ _ _ _ _ hsim
  exact ⟨hpair, fun v hv => (hmem v hv).2⟩

/-- Witness for C5 at the concrete one-voter precinct `preC`. -/
theorem C5_simulate_invariants_witness :
    (∀ i, 0 < (rngC 0 i).gap) ∧
    (mkPrecinct preC).simulate 0 2 rngC 0 = some lC ∧
    (lC.Pairwise (fun u w => u.arrival_time < w.arrival_time) ∧
      ∀ v ∈ lC, ∃ s, v.start_time = some s ∧ v.arrival_time ≤ s ∧
        v.departure_time = some (s + v.voting_duration)) :=
  ⟨fun i => show (0 : ℚ) < 1 by decide, by decide,
    C5_simulate_invariants (mkPrecinct preC) 0 2 rngC 0 lC
      (fun i => show (0 : ℚ) < 1 by decide) (by decide)⟩

/-- C7: when the booth count is at least the voter cap the pool is never
full, and every simulated voter's start_time equals its arrival_time. -/
theorem C7_no_contention (p : Precinct) (pct sd : ℚ) (rng : ℕ → ℕ → Draw)
    (seed : ℕ) (l : List Voter)
    (hcap : p.max_num_voters ≤ p.num_booths)
    (hsim : p.simulate pct sd rng seed = some l) :
    ∀ v ∈ l, v.start_time = some v.arrival_time := by
  unfold Precinct.simulate at hsim
  exact simulateFrom_no_wait _ _ _ _ _ _ _ _ (by simpa using hcap) hsim

/-- Witness for C7 at `preC` (one booth, one-voter cap). -/
theorem C7_no_contention_witness :
    (mkPrecinct preC).max_num_voters ≤ (mkPrecinct preC).num_booths ∧
    (mkPrecinct preC).simulate 0 2 rngC 0 = some lC ∧
    ∀ v ∈ lC, v.start_time = some v.arrival_time :=
  ⟨by decide, by decide,
    C7_no_contention (mkPrecinct preC) 0 2 rngC 0 lC (by decide) (by decide)⟩

/-- C8: determinism — the simulation output is a pure function of the
configuration and the seed: two runs whose seeds are equal and whose
seeded draw streams agree produce identical output sequences. -/
theorem C8_determinism (p : Precinct) (pct sd : ℚ) (rng1 rng2 : ℕ → ℕ → Draw)
    (s1 s2 : ℕ) (hseed : s1 = s2) (hdraws : ∀ i, rng1 s1 i = rng2 s2 i) :
    p.simulate pct sd rng1 s1 = p.simulate pct sd rng2 s2 := by
  subst hseed
  unfold Precinct.simulate
  rw [funext hdraws]

/-- Witness for C8: two distinct stream families agreeing at seed 0. -/
theorem C8_determinism_witness :
    (0 : ℕ) = 0 ∧ (∀ i, rngC 0 i = rngC2 0 i) ∧
    (mkPrecinct preC).simulate 0 2 rngC 0 = (mkPrecinct preC).simulate 0 2 rngC2 0 :=
  ⟨rfl, fun i => rfl,
    C8_determinism (mkPrecinct preC) 0 2 rngC rngC2 0 0 rfl (fun i => rfl)⟩

/-- C9: the output of `Precinct.simulate` is independent of its
`straight_ticket_duration` argument — the `gen_voter_parameters` call at
lines 100-101 passes the literal constant 2, so any two argument values
yield identical voter sequences. -/
theorem C9_straight_ticket_duration_ignored (p : Precinct) (pct d1 d2 : ℚ)
    (rng : ℕ → ℕ → Draw) (seed : ℕ) :
    p.simulate pct d1 rng seed = p.simulate pct d2 rng seed := rfl

/-- C10: `add_voter` assigns the voter's start and departure times before
attempting the insertion, so when insertion fails on a full pool the
failure is raised with the voter already mutated. -/
theorem C10_mutation_before_insertion (b : VotingBooths) (v : Voter)
    (s d : ℚ) (hfull : b.is_full = true) :
    (b.add_voter v s d).2 = none ∧
    (b.add_voter v s d).1.start_time = some s ∧
    (b.add_voter v s d).1.departure_time = some (s + d) := by
  refine ⟨?_, rfl, rfl⟩
  simp [VotingBooths.add_voter, VotingBooths.put, hfull]

/-- Witness for C10 at a concrete full pool. -/
theorem C10_mutation_before_insertion_witness :
    bFull.is_full = true ∧
    ((bFull.add_voter vC 1 2).2 = none ∧
      (bFull.add_voter vC 1 2).1.start_time = some 1 ∧
      (bFull.add_voter vC 1 2).1.departure_time = some (1 + 2)) :=
  ⟨by decide, C10_mutation_before_insertion bFull vC 1 2 (by decide)⟩

/-- C6 counterexample: at capacity the admit operation does not return
false with the voter unmutated — at a concrete full pool the voter comes
back changed (its write-once fields assigned) and the failure is a raised
error (`none`), not a boolean. -/
theorem C6_counterexample :
    bFull.is_full = true ∧ (bFull.add_voter vC 1 2).1 ≠ vC ∧
    (bFull.add_voter vC 1 2).2 = none := by decide

/-- C6 amended: `add_voter` always assigns the voter's start and departure
fields; at capacity the insertion raises (`none`) — the pool itself is
left unchanged since the raise happens inside `put` — and below capacity
the departure time is inserted into the pool. -/
theorem C6_amended_add_voter (b : VotingBooths) (v : Voter) (s d : ℚ) :
    (b.add_voter v s d).1 =
      { v with start_time := some s, departure_time := some (s + d) } ∧
    (b.is_full = true → (b.add_voter v s d).2 = none) ∧
    (b.is_full = false →
      (b.add_voter v s d).2 =
        some ⟨b.num_booths, b.pq.orderedInsert (· ≤ ·) (s + d)⟩) := by
  refine ⟨rfl, ?_, ?_⟩
  · intro h
    simp [VotingBooths.add_voter, VotingBooths.put, h]
  · intro h
    simp [VotingBooths.add_voter, VotingBooths.put, h]

/-- Witness for C6's amended statement at a concrete full pool. -/
theorem C6_amended_add_voter_witness :
    bFull.is_full = true ∧ (bFull.add_voter vC 1 2).2 = none ∧
    (bFull.add_voter vC 1 2).1 =
      { vC with start_time := some 1, departure_time := some (1 + 2) } :=
  ⟨by decide, (C6_amended_add_voter bFull vC 1 2).2.1 (by decide),
    (C6_amended_add_voter bFull vC 1 2).1⟩

/-- C4: for trial count n ≥ 1 the aggregator runs the simulator once per
seed in s0, s0+1, …, s0+n-1, collects the n per-trial averages
(`specSeedAverages`, written from the spec), sorts them ascending, and
returns the sorted element at index ⌊n/2⌋ — the lower median for even n. -/
theorem C4_lower_median (precinct : PrecinctConfig) (pct : ℚ)
    (rng : ℕ → ℕ → Draw) (n s0 : ℕ) (hn : 1 ≤ n) :
    find_avg_wait_time precinct pct n rng s0 =
      ((specSeedAverages precinct pct rng n s0).insertionSort (· ≤ ·)).get? (n / 2) ∧
    ((specSeedAverages precinct pct rng n s0).insertionSort (· ≤ ·)).Sorted (· ≤ ·) ∧
    ((specSeedAverages precinct pct rng n s0).insertionSort (· ≤ ·)).Perm
      (specSeedAverages precinct pct rng n s0) ∧
    n / 2 < (specSeedAverages precinct pct rng n s0).length ∧
    (find_avg_wait_time precinct pct n rng s0).isSome = true := by
  have hlen : (specSeedAverages precinct pct rng n s0).length = n := by
    simp [specSeedAverages]
  have hidx : n / 2 < n := Nat.div_lt_self (by omega) (by omega)
  have hidx2 : n / 2 <
      ((specSeedAverages precinct pct rng n s0).insertionSort (· ≤ ·)).length := by
    rw [List.length_insertionSort, hlen]; omega
  refine ⟨find_avg_eq precinct pct n rng s0, List.sorted_insertionSort _ _,
    List.perm_insertionSort _ _, by omega, ?_⟩
  rw [find_avg_eq precinct pct n rng s0, List.get?_eq_get hidx2]
  rfl

/-- Witness for C4 with a single trial at `preC`. -/
theorem C4_lower_median_witness :
    1 ≤ 1 ∧
    (find_avg_wait_time preC 0 1 rngC 0 =
      ((specSeedAverages preC 0 rngC 1 0).insertionSort (· ≤ ·)).get? (1 / 2) ∧
    ((specSeedAverages preC 0 rngC 1 0).insertionSort (· ≤ ·)).Sorted (· ≤ ·) ∧
    ((specSeedAverages preC 0 rngC 1 0).insertionSort (· ≤ ·)).Perm
      (specSeedAverages preC 0 rngC 1 0) ∧
    1 / 2 < (specSeedAverages preC 0 rngC 1 0).length ∧
    (find_avg_wait_time preC 0 1 rngC 0).isSome = true) :=
  ⟨le_refl 1, C4_lower_median preC 0 rngC 1 0 (le_refl 1)⟩

/-- C3: the search evaluates the candidates 0.0, 0.1, …, 1.0 in ascending
order, invoking the aggregator with percent_straight_ticket = 1 - p for
each candidate p, and returns the first (smallest) candidate whose median
wait strictly exceeds the target, paired with that observed median. -/
theorem C3_first_crossing (precinct : PrecinctConfig) (target : ℚ) (ntrials : ℕ)
    (rng : ℕ → ℕ → Draw) (seed : ℕ) (W : ℚ → ℚ)
    (hW : ∀ q ∈ percent_split_ticket_list,
      find_avg_wait_time precinct (1 - q) ntrials rng seed = some (W q))
    (he : ∃ q ∈ percent_split_ticket_list, target < W q) :
    ∃ p0 ∈ percent_split_ticket_list, target < W p0 ∧
      (∀ q ∈ percent_split_ticket_list, q < p0 → ¬ target < W q) ∧
      find_percent_split_ticket precinct target ntrials rng seed =
        some (p0, some (W p0)) := by
  have hsorted : percent_split_ticket_list.Pairwise (· < ·) := by decide
  exact splitLoopFrom_first_crossing precinct target ntrials rng seed W
    percent_split_ticket_list hsorted hW he

/-- Witness for C3: with every median equal to 0 and target -1, the first
candidate 0.0 already crosses. -/
theorem C3_first_crossing_witness :
    (∀ q ∈ percent_split_ticket_list,
      find_avg_wait_time preC (1 - q) 1 rngC 0 = some 0) ∧
    (∃ q ∈ percent_split_ticket_list, (-1 : ℚ) < 0) ∧
    (∃ p0 ∈ percent_split_ticket_list, (-1 : ℚ) < 0 ∧
      (∀ q ∈ percent_split_ticket_list, q < p0 → ¬ (-1 : ℚ) < 0) ∧
      find_percent_split_ticket preC (-1) 1 rngC 0 = some (p0, some 0)) :=
  ⟨by decide, by decide,
    C3_first_crossing preC (-1) 1 rngC 0 (fun _ => 0) (by decide) (by decide)⟩

/-- C2 amended: when no candidate's median strictly exceeds the target,
the search returns percentage 1 (never the 0.0 of a threshold found at
p = 0.0) — paired with `none` when the p = 1.0 median is strictly below
the target, but paired with the numeric median itself (no distinct
Infeasible tag) when that median equals the target exactly. -/
theorem C2_amended_no_crossing (precinct : PrecinctConfig) (target : ℚ)
    (ntrials : ℕ) (rng : ℕ → ℕ → Draw) (seed : ℕ) (W : ℚ → ℚ)
    (hW : ∀ q ∈ percent_split_ticket_list,
      find_avg_wait_time precinct (1 - q) ntrials rng seed = some (W q))
    (hno : ∀ q ∈ percent_split_ticket_list, ¬ target < W q) :
    find_percent_split_ticket precinct target ntrials rng seed =
      some (1, if W 1 < target then none else some (W 1)) := by
  have h := splitLoopFrom_all_below precinct target ntrials rng seed W
    percent_split_ticket_list 1 (by decide) hW hno
  simpa [find_percent_split_ticket] using h

/-- Witness for C2's amended statement: all medians 0, target 1 —
the result is the tagged pair (1, none). -/
theorem C2_amended_no_crossing_witness :
    (∀ q ∈ percent_split_ticket_list,
      find_avg_wait_time preC (1 - q) 1 rngC 0 = some 0) ∧
    (∀ q ∈ percent_split_ticket_list, ¬ (1 : ℚ) < 0) ∧
    find_percent_split_ticket preC 1 1 rngC 0 = some (1, none) := by
  refine ⟨by decide, by decide, ?_⟩
  have h := C2_amended_no_crossing preC 1 1 rngC 0 (fun _ => 0) (by decide) (by decide)
  rw [if_pos (by norm_num)] at h
  exact h

/-- C2 counterexample: all candidate medians are 0 and the target is 0, so
no candidate strictly exceeds the target, yet the search returns
(1, some 0) — a numeric wait in the same shape as a found-threshold
result, not a distinct Infeasible tag. -/
theorem C2_counterexample :
    (∀ q ∈ percent_split_ticket_list,
      find_avg_wait_time preC (1 - q) 1 rngC 0 = some 0) ∧
    ¬ ((0 : ℚ) < 0) ∧
    find_percent_split_ticket preC 0 1 rngC 0 = some (1, some 0) ∧
    some (0 : ℚ) ≠ (none : Option ℚ) := by decide

/-- C1: at a run where only two of `preB`'s three capped voters are served
(summed wait 9), the aggregator's per-trial average is 9 / 3 = 3 — the sum
divided by the voter cap — and not the mean 9 / 2 over the two served
voters. -/
theorem C1_average_divided_by_cap :
    (mkPrecinct preB).simulate 0 preB.straight_ticket_duration rngB 0 = some lB ∧
    lB.length = 2 ∧ (mkPrecinct preB).max_num_voters = 3 ∧
    total_wait lB = 9 ∧
    find_avg_wait_time preB 0 1 rngB 0 = some 3 ∧
    total_wait lB / (lB.length : ℚ) = 9 / 2 ∧
    (3 : ℚ) ≠ 9 / 2 := by decide
